import Mathlib

/-!
Verification of the grasp annotation tool (`annotation.py`).

The tool has two parts:
* `rectangle_w_angle` — a pure geometry function mapping
  (origin x, origin y, width, height, angle in degrees) to the four
  corners of a rotated rectangle, returned as a 2×4 array of columns
  v1, v2, v3, v4 (modelled here as a list of four points);
* `annotate_image` plus the `main` loop — an interactive session that
  captures three clicks, derives (width, angle, height), invokes the
  geometry function, and appends the four corners, one `"x y"` line per
  corner, to the image's annotation file.

The embedding uses real numbers for the floating-point arithmetic of the
source, `Complex.arg` for `np.arctan2` (both return the angle of the
point (x, y) in (−π, π], with value 0 at the origin), and models an
output-file line `f"{vx} {vy}"` as the pair (vx, vy) of the two real
numbers printed on that line.
-/

noncomputable section

/-- A 2D point (a pair of real pixel coordinates). -/
structure Pt where
  x : ℝ
  y : ℝ
  deriving DecidableEq

/-- Embeds `np.deg2rad`: degrees to radians. -/
def deg2rad (d : ℝ) : ℝ := d * (Real.pi / 180)

/-- Embeds `np.arctan2(y, x)`: the angle of the point (x, y), in (−π, π],
with `arctan2 0 0 = 0`; this is exactly `Complex.arg` of x + y·i. -/
def arctan2 (y x : ℝ) : ℝ := Complex.arg ⟨x, y⟩

/-- Embeds `rectangle_w_angle(x, y, width, height, angle_deg)` from
`annotation.py`: `theta = np.deg2rad(angle_deg)`; `v1 = [x, y]`;
`v2 = v1 + [width*cos(theta), width*sin(theta)]`;
`perp = [-sin(theta), cos(theta)]`; `v4 = v1 + height*perp`;
`v3 = v2 + height*perp`; returns `column_stack((v1, v2, v3, v4))`,
modelled as the list of the four column points in that order. -/
def rectangle_w_angle (x y width height angle_deg : ℝ) : List Pt :=
  let theta := deg2rad angle_deg
  let v1 : Pt := ⟨x, y⟩
  let v2 : Pt := ⟨v1.x + width * Real.cos theta, v1.y + width * Real.sin theta⟩
  let perp : Pt := ⟨-Real.sin theta, Real.cos theta⟩
  let v4 : Pt := ⟨v1.x + height * perp.x, v1.y + height * perp.y⟩
  let v3 : Pt := ⟨v2.x + height * perp.x, v2.y + height * perp.y⟩
  [v1, v2, v3, v4]

/-- Column i of the 2×4 vertex array (`vertices[:, i]`), with an
out-of-range default that never arises on the 4-column result. -/
def corner (vs : List Pt) (i : ℕ) : Pt := vs.getD i ⟨0, 0⟩

/-- Euclidean distance between two points, written from the spec's
phrase "Euclidean distance": √((qx − px)² + (qy − py)²). -/
def euclidDist (p q : Pt) : ℝ :=
  Real.sqrt ((q.x - p.x) ^ 2 + (q.y - p.y) ^ 2)

/-- Radians to degrees, the spec's "converted to degrees": r·180/π. -/
def rad2deg (r : ℝ) : ℝ := r * 180 / Real.pi

/-- Embeds line 42 of `annotation.py`:
`width = np.sqrt((x - x2) ** 2 + (y - y2) ** 2)`. -/
def click_width (p1 p2 : Pt) : ℝ :=
  Real.sqrt ((p1.x - p2.x) ^ 2 + (p1.y - p2.y) ^ 2)

/-- Embeds line 44 of `annotation.py`:
`angle = np.arctan2((y2 - y), (x2 - x)) * 180 / np.pi`. -/
def click_angle (p1 p2 : Pt) : ℝ :=
  arctan2 (p2.y - p1.y) (p2.x - p1.x) * 180 / Real.pi

/-- Embeds line 46 of `annotation.py`:
`height = np.sqrt((x3 - x2) ** 2 + (y3 - y2) ** 2)`. -/
def click_height (p2 p3 : Pt) : ℝ :=
  Real.sqrt ((p3.x - p2.x) ^ 2 + (p3.y - p2.y) ^ 2)

/-- Embeds `annotate_image`: `pts = plt.ginput(3, timeout=-1)` is modelled
by the argument `pts` (the clicks actually captured, fewer than 3 when the
window is closed mid-capture); `if len(pts) < 3: return None`; otherwise
the three points are destructured, width/angle/height computed, and
`rectangle_w_angle(x, y, width, height, angle)` returned. Drawing calls
(`ax.plot`, `plt.draw`) have no effect on the result or the file. -/
def annotate_image (pts : List Pt) : Option (List Pt) :=
  match pts with
  | [p1, p2, p3] =>
      some (rectangle_w_angle p1.x p1.y (click_width p1 p2)
        (click_height p2 p3) (click_angle p1 p2))
  | _ => none

/-- One output-file line `f"{vertices[0, i]} {vertices[1, i]}\n"`,
modelled as the pair of the two numbers printed on the line. -/
def vertex_line (p : Pt) : ℝ × ℝ := (p.x, p.y)

/-- The four lines written for one rectangle by the loop
`for i in range(4): anno_file.write(f"{vertices[0, i]} {vertices[1, i]}\n")`:
one line per column of the vertex array, in column order. -/
def rect_lines (vs : List Pt) : List (ℝ × ℝ) := vs.map vertex_line

/-- The lines a single capture attempt appends: none when
`annotate_image` returns `None`, otherwise the four vertex lines. -/
def attempt_lines (pts : List Pt) : List (ℝ × ℝ) :=
  match annotate_image pts with
  | none => []
  | some vs => rect_lines vs

/-- Embeds the per-image `while` loop of `main`: each element of
`attempts` is the click list of one capture attempt; the loop writes the
four vertex lines of each successful attempt and `break`s at the first
attempt that returns `None`, leaving the file with the lines written so
far. The file was opened with mode `'w'`, so it starts empty. -/
def session_output : List (List Pt) → List (ℝ × ℝ)
  | [] => []
  | pts :: rest =>
      match annotate_image pts with
      | none => []
      | some vs => rect_lines vs ++ session_output rest

/-- `corner` picks the first column of a four-column array. -/
@[simp] theorem corner_zero (a b c d : Pt) : corner [a, b, c, d] 0 = a := rfl

/-- `corner` picks the second column of a four-column array. -/
@[simp] theorem corner_one (a b c d : Pt) : corner [a, b, c, d] 1 = b := rfl

/-- `corner` picks the third column of a four-column array. -/
@[simp] theorem corner_two (a b c d : Pt) : corner [a, b, c, d] 2 = c := rfl

/-- `corner` picks the fourth column of a four-column array. -/
@[simp] theorem corner_three (a b c d : Pt) : corner [a, b, c, d] 3 = d := rfl

/-- Claim C1: for every origin P=(x,y), width w, height h and angle θ in
degrees, `rectangle_w_angle` returns exactly the four corners
v1 = P, v2 = P + w·(cos θ, sin θ), v3 = v2 + h·(−sin θ, cos θ),
v4 = v1 + h·(−sin θ, cos θ), in the order v1, v2, v3, v4 (the trig
functions taken of the angle after degree-to-radian conversion); in
particular the first returned corner equals (x, y). -/
theorem rectangle_w_angle_corners (x y w h θd : ℝ) :
    rectangle_w_angle x y w h θd =
      [⟨x, y⟩,
       ⟨x + w * Real.cos (deg2rad θd), y + w * Real.sin (deg2rad θd)⟩,
       ⟨(x + w * Real.cos (deg2rad θd)) + h * (-Real.sin (deg2rad θd)),
        (y + w * Real.sin (deg2rad θd)) + h * Real.cos (deg2rad θd)⟩,
       ⟨x + h * (-Real.sin (deg2rad θd)), y + h * Real.cos (deg2rad θd)⟩] ∧
    corner (rectangle_w_angle x y w h θd) 0 = ⟨x, y⟩ := by
  constructor <;> rfl

/-- Claim C5: for all inputs, the dot product of the edge vectors
(v2 − v1) and (v4 − v1) of the returned corners is zero, i.e. the two
edges meet at exactly 90°. -/
theorem rectangle_w_angle_perp (x y w h θd : ℝ) :
    ((corner (rectangle_w_angle x y w h θd) 1).x -
        (corner (rectangle_w_angle x y w h θd) 0).x) *
      ((corner (rectangle_w_angle x y w h θd) 3).x -
        (corner (rectangle_w_angle x y w h θd) 0).x) +
    ((corner (rectangle_w_angle x y w h θd) 1).y -
        (corner (rectangle_w_angle x y w h θd) 0).y) *
      ((corner (rectangle_w_angle x y w h θd) 3).y -
        (corner (rectangle_w_angle x y w h θd) 0).y) = 0 := by
  simp only [rectangle_w_angle, corner_zero, corner_one, corner_two, corner_three]
  ring

/-- Claim C9: for every input, with no sign restriction, the four
returned corners satisfy the parallelogram identity v1 + v3 = v2 + v4
in both coordinates; the function is total and imposes no precondition. -/
theorem rectangle_w_angle_parallelogram (x y w h θd : ℝ) :
    (corner (rectangle_w_angle x y w h θd) 0).x +
      (corner (rectangle_w_angle x y w h θd) 2).x =
    (corner (rectangle_w_angle x y w h θd) 1).x +
      (corner (rectangle_w_angle x y w h θd) 3).x ∧
    (corner (rectangle_w_angle x y w h θd) 0).y +
      (corner (rectangle_w_angle x y w h θd) 2).y =
    (corner (rectangle_w_angle x y w h θd) 1).y +
      (corner (rectangle_w_angle x y w h θd) 3).y := by
  constructor <;>
  · simp only [rectangle_w_angle, corner_zero, corner_one, corner_two, corner_three]
    ring

/-- The width computed at line 42 is the Euclidean distance P1–P2
(the squared differences are taken in the opposite order, which does not
change the value). -/
theorem click_width_eq_euclidDist (p q : Pt) :
    click_width p q = euclidDist p q := by
  unfold click_width euclidDist
  congr 1
  ring

/-- The height computed at line 46 is the Euclidean distance P2–P3. -/
theorem click_height_eq_euclidDist (p q : Pt) :
    click_height p q = euclidDist p q := rfl

/-- Claim C4: on three captured clicks P1, P2, P3, the session computes
width = Euclidean distance(P1, P2), angle = atan2(P2.y − P1.y, P2.x − P1.x)
converted to degrees, height = Euclidean distance(P2, P3), and invokes the
geometry engine as `rectangle_w_angle(P1.x, P1.y, width, height, angle)`. -/
theorem annotate_image_derivation (p1 p2 p3 : Pt) :
    annotate_image [p1, p2, p3] =
      some (rectangle_w_angle p1.x p1.y (euclidDist p1 p2) (euclidDist p2 p3)
        (rad2deg (arctan2 (p2.y - p1.y) (p2.x - p1.x)))) := by
  simp only [annotate_image, click_width_eq_euclidDist, click_height_eq_euclidDist]
  rfl

/-- Claim C10: the width and height that `annotate_image` derives from any
three clicks are square roots, hence non-negative, and these are exactly
the values passed to the geometry engine, so the engine's precondition
w ≥ 0, h ≥ 0 holds on every session invocation. -/
theorem annotate_image_dims_nonneg (p1 p2 p3 : Pt) :
    0 ≤ click_width p1 p2 ∧ 0 ≤ click_height p2 p3 ∧
    annotate_image [p1, p2, p3] =
      some (rectangle_w_angle p1.x p1.y (click_width p1 p2)
        (click_height p2 p3) (click_angle p1 p2)) :=
  ⟨Real.sqrt_nonneg _, Real.sqrt_nonneg _, rfl⟩

/-- Claim C8: for non-negative width, the Euclidean distance between the
returned corners v1 and v2 equals the width exactly (the real-number
idealisation of "within floating-point tolerance"). -/
theorem rectangle_w_angle_dist_v1_v2 (x y w h θd : ℝ) (hw : 0 ≤ w) :
    euclidDist (corner (rectangle_w_angle x y w h θd) 0)
      (corner (rectangle_w_angle x y w h θd) 1) = w := by
  simp only [rectangle_w_angle, corner_zero, corner_one]
  unfold euclidDist
  have hsc := Real.sin_sq_add_cos_sq (deg2rad θd)
  have key : (x + w * Real.cos (deg2rad θd) - x) ^ 2 +
      (y + w * Real.sin (deg2rad θd) - y) ^ 2 = w ^ 2 := by
    linear_combination w ^ 2 * hsc
  rw [key, Real.sqrt_sq hw]

/-- Witness for C8 at x = 0, y = 0, w = 2, h = 3, angle = 0. -/
theorem rectangle_w_angle_dist_v1_v2_witness :
    (0 : ℝ) ≤ 2 ∧
    euclidDist (corner (rectangle_w_angle 0 0 2 3 0) 0)
      (corner (rectangle_w_angle 0 0 2 3 0) 1) = 2 :=
  ⟨by norm_num, rectangle_w_angle_dist_v1_v2 0 0 2 3 0 (by norm_num)⟩

/-- The area of the returned quadrilateral v1 v2 v3 v4, by the shoelace
formula: half the absolute value of the signed sum over the edges. -/
def quad_area (vs : List Pt) : ℝ :=
  |((corner vs 0).x * (corner vs 1).y - (corner vs 1).x * (corner vs 0).y) +
    ((corner vs 1).x * (corner vs 2).y - (corner vs 2).x * (corner vs 1).y) +
    ((corner vs 2).x * (corner vs 3).y - (corner vs 3).x * (corner vs 2).y) +
    ((corner vs 3).x * (corner vs 0).y - (corner vs 0).x * (corner vs 3).y)| / 2

/-- The shoelace area of the rectangle returned for (x, y, w, h, θ) is
|w·h|: the signed sum is 2·w·h·(sin² θ + cos² θ). -/
theorem quad_area_rectangle (x y w h θd : ℝ) :
    quad_area (rectangle_w_angle x y w h θd) = |w * h| := by
  unfold quad_area
  simp only [rectangle_w_angle, corner_zero, corner_one, corner_two, corner_three]
  have hsc := Real.sin_sq_add_cos_sq (deg2rad θd)
  have habs : ∀ E : ℝ, E = 2 * (w * h) → |E| / 2 = |w * h| := by
    intro E hE
    rw [hE, abs_mul, abs_two]
    ring
  apply habs
  linear_combination 2 * (w * h) * hsc

/-- Claim C6: the returned rectangle has zero area exactly when
width = 0 or height = 0. -/
theorem rectangle_w_angle_degenerate_iff (x y w h θd : ℝ) :
    quad_area (rectangle_w_angle x y w h θd) = 0 ↔ w = 0 ∨ h = 0 := by
  rw [quad_area_rectangle, abs_eq_zero, mul_eq_zero]

/-- A capture that obtains fewer than 3 points returns `None`
(the `if len(pts) < 3: return None` branch). -/
theorem annotate_image_short (pts : List Pt) (h : pts.length < 3) :
    annotate_image pts = none := by
  rcases pts with _ | ⟨a, _ | ⟨b, _ | ⟨c, tail⟩⟩⟩
  · rfl
  · rfl
  · rfl
  · simp at h
    omega

/-- Unfolding the session loop on a successful three-click capture: the
four vertex lines are appended and the loop continues. -/
theorem session_output_cons_three (p1 p2 p3 : Pt) (rest : List (List Pt)) :
    session_output ([p1, p2, p3] :: rest) =
      rect_lines (rectangle_w_angle p1.x p1.y (click_width p1 p2)
        (click_height p2 p3) (click_angle p1 p2)) ++ session_output rest := rfl

/-- Unfolding the session loop on a failed capture: the loop `break`s and
nothing more is written. -/
theorem session_output_cons_none (pts : List Pt) (rest : List (List Pt))
    (h : annotate_image pts = none) : session_output (pts :: rest) = [] := by
  unfold session_output
  rw [h]

/-- Claim C2: a session whose capture attempts are all completed (three
clicks each) writes, per attempt, exactly the four vertex lines of that
attempt's rectangle, in attempt order; the file therefore holds the
concatenation of the per-rectangle line blocks, 4·N lines in total, each
line carrying the two coordinates of one vertex, the four lines of each
rectangle consecutive and in the order v1, v2, v3, v4 of the vertex array. -/
theorem session_output_complete (attempts : List (List Pt))
    (h3 : ∀ a ∈ attempts, a.length = 3) :
    session_output attempts = (attempts.map attempt_lines).flatten ∧
    (session_output attempts).length = 4 * attempts.length ∧
    ∀ a ∈ attempts, ∃ p1 p2 p3, a = [p1, p2, p3] ∧
      attempt_lines a = rect_lines (rectangle_w_angle p1.x p1.y
        (click_width p1 p2) (click_height p2 p3) (click_angle p1 p2)) ∧
      (attempt_lines a).length = 4 := by
  induction attempts with
  | nil => simp [session_output]
  | cons a rest ih =>
    have ha : a.length = 3 := h3 a (by simp)
    have hrest : ∀ b ∈ rest, b.length = 3 := fun b hb => h3 b (by simp [hb])
    obtain ⟨e1, e2, e3⟩ := ih hrest
    rcases a with _ | ⟨p1, _ | ⟨p2, _ | ⟨p3, tail⟩⟩⟩ <;> simp at ha
    obtain rfl : tail = [] := by
      cases tail with
      | nil => rfl
      | cons q t => simp at ha
    refine ⟨?_, ?_, ?_⟩
    · rw [session_output_cons_three, List.map_cons, List.flatten_cons, e1]
      rfl
    · rw [session_output_cons_three, List.length_append, e2]
      have h4 : (rect_lines (rectangle_w_angle p1.x p1.y (click_width p1 p2)
          (click_height p2 p3) (click_angle p1 p2))).length = 4 := rfl
      rw [h4, List.length_cons]
      ring
    · intro b hb
      rcases List.mem_cons.mp hb with hb1 | hb2
      · exact ⟨p1, p2, p3, hb1, by rw [hb1]; exact ⟨rfl, rfl⟩⟩
      · exact e3 b hb2

/-- Witness for C2: a session of one completed rectangle. -/
theorem session_output_complete_witness :
    (∀ a ∈ [[(⟨0, 0⟩ : Pt), ⟨1, 0⟩, ⟨1, 1⟩]], a.length = 3) ∧
    (session_output [[(⟨0, 0⟩ : Pt), ⟨1, 0⟩, ⟨1, 1⟩]] =
        ([[(⟨0, 0⟩ : Pt), ⟨1, 0⟩, ⟨1, 1⟩]].map attempt_lines).flatten ∧
      (session_output [[(⟨0, 0⟩ : Pt), ⟨1, 0⟩, ⟨1, 1⟩]]).length =
        4 * [[(⟨0, 0⟩ : Pt), ⟨1, 0⟩, ⟨1, 1⟩]].length ∧
      ∀ a ∈ [[(⟨0, 0⟩ : Pt), ⟨1, 0⟩, ⟨1, 1⟩]], ∃ p1 p2 p3,
        a = [p1, p2, p3] ∧
        attempt_lines a = rect_lines (rectangle_w_angle p1.x p1.y
          (click_width p1 p2) (click_height p2 p3) (click_angle p1 p2)) ∧
        (attempt_lines a).length = 4) :=
  ⟨by simp, session_output_complete _ (by simp)⟩

/-- Claim C3: when, after any number of completed rectangles, a capture
attempt obtains fewer than 3 points, the session terminates: that attempt
contributes zero lines, nothing after it is processed, and the file holds
exactly the lines of the previously completed rectangles, unchanged. -/
theorem session_output_early_termination (good : List (List Pt))
    (bad : List Pt) (rest : List (List Pt))
    (h3 : ∀ a ∈ good, a.length = 3) (hbad : bad.length < 3) :
    attempt_lines bad = [] ∧
    session_output (good ++ bad :: rest) = session_output good := by
  have hnone : annotate_image bad = none := annotate_image_short bad hbad
  refine ⟨by unfold attempt_lines; rw [hnone], ?_⟩
  induction good with
  | nil =>
    rw [List.nil_append, session_output_cons_none bad rest hnone]
    rfl
  | cons a g ih =>
    have ha : a.length = 3 := h3 a (by simp)
    have hg : ∀ b ∈ g, b.length = 3 := fun b hb => h3 b (by simp [hb])
    rcases a with _ | ⟨p1, _ | ⟨p2, _ | ⟨p3, tail⟩⟩⟩ <;> simp at ha
    obtain rfl : tail = [] := by
      cases tail with
      | nil => rfl
      | cons q t => simp at ha
    rw [List.cons_append, session_output_cons_three,
      session_output_cons_three, ih hg]

/-- Witness for C3: one completed rectangle, then a one-click attempt. -/
theorem session_output_early_termination_witness :
    (∀ a ∈ [[(⟨0, 0⟩ : Pt), ⟨1, 0⟩, ⟨1, 1⟩]], a.length = 3) ∧
    ([(⟨2, 2⟩ : Pt)].length < 3) ∧
    (attempt_lines [(⟨2, 2⟩ : Pt)] = [] ∧
      session_output ([[(⟨0, 0⟩ : Pt), ⟨1, 0⟩, ⟨1, 1⟩]] ++
          [(⟨2, 2⟩ : Pt)] :: [[(⟨3, 3⟩ : Pt), ⟨4, 3⟩, ⟨4, 4⟩]]) =
        session_output [[(⟨0, 0⟩ : Pt), ⟨1, 0⟩, ⟨1, 1⟩]]) :=
  ⟨by simp, by simp,
    session_output_early_termination _ _ _ (by simp) (by simp)⟩

/-- Claim C7: for the clicks origin = (0,0), second = (0,10),
third = (5,10), the session derives angle = 90 degrees and produces the
corners (0,0), (0,10), (−5,10), (−5,0), in the order v1, v2, v3, v4. -/
theorem scenario_vertical_click :
    click_angle ⟨0, 0⟩ ⟨0, 10⟩ = 90 ∧
    annotate_image [⟨0, 0⟩, ⟨0, 10⟩, ⟨5, 10⟩] =
      some [⟨0, 0⟩, ⟨0, 10⟩, ⟨-5, 10⟩, ⟨-5, 0⟩] := by
  have hw : click_width ⟨0, 0⟩ ⟨0, 10⟩ = 10 := by
    show Real.sqrt ((0 - 0 : ℝ) ^ 2 + (0 - 10 : ℝ) ^ 2) = 10
    rw [show (0 - 0 : ℝ) ^ 2 + (0 - 10 : ℝ) ^ 2 = 10 ^ 2 by norm_num]
    exact Real.sqrt_sq (by norm_num)
  have hh : click_height ⟨0, 10⟩ ⟨5, 10⟩ = 5 := by
    show Real.sqrt ((5 - 0 : ℝ) ^ 2 + (10 - 10 : ℝ) ^ 2) = 5
    rw [show (5 - 0 : ℝ) ^ 2 + (10 - 10 : ℝ) ^ 2 = 5 ^ 2 by norm_num]
    exact Real.sqrt_sq (by norm_num)
  have harg : Complex.arg ⟨(0 : ℝ) - 0, (10 : ℝ) - 0⟩ = Real.pi / 2 := by
    rw [Complex.arg_eq_pi_div_two_iff]
    constructor
    · norm_num
    · norm_num
  have ha : click_angle ⟨0, 0⟩ ⟨0, 10⟩ = 90 := by
    show Complex.arg ⟨(0 : ℝ) - 0, (10 : ℝ) - 0⟩ * 180 / Real.pi = 90
    rw [harg]
    have hpi : Real.pi ≠ 0 := Real.pi_ne_zero
    field_simp
    ring
  have hθ : deg2rad 90 = Real.pi / 2 := by
    unfold deg2rad
    ring
  have hrect : rectangle_w_angle 0 0 10 5 90 = [⟨0, 0⟩, ⟨0, 10⟩, ⟨-5, 10⟩, ⟨-5, 0⟩] := by
    simp only [rectangle_w_angle, hθ, Real.cos_pi_div_two, Real.sin_pi_div_two]
    norm_num
  refine ⟨ha, ?_⟩
  have hcall : annotate_image [⟨0, 0⟩, ⟨0, 10⟩, ⟨5, 10⟩] =
      some (rectangle_w_angle 0 0 (click_width ⟨0, 0⟩ ⟨0, 10⟩)
        (click_height ⟨0, 10⟩ ⟨5, 10⟩) (click_angle ⟨0, 0⟩ ⟨0, 10⟩)) := rfl
  rw [hcall, hw, hh, ha, hrect]

end
